import Mathlib

/-!
Shallow embedding of the route-optimization engine of the edmc_rscan
repository and theorems checking its natural-language specification
against the code.

Embedded components (file and symbol named at each definition):
the Euclid distance-implementation selector, the AlgAStar search, the
AlgTsp exhaustive permutation search, the AlgGenetic helpers, the
candidate filter and flight-route dispatcher of ThSystemSearch, and the
StarsSystem name setters of the two repository versions.

Conventions: Python floats are modelled as rationals; the injected
distance metric (the Euclid object) is a function parameter applied to
star_pos values; Python dictionaries keyed by objects are association
lists; Python object identity is modelled by structural equality on
fully distinguishable records; while loops without a structural bound
carry an explicit fuel argument.
-/

namespace RScan

/-- A star position as produced by StarsSystem.star_pos: the list
[pos_x, pos_y, pos_z] of optional coordinates. -/
abbrev Pos := List (Option ℚ)

/-- Model of the StarsSystem container (stars.py): identity fields,
optional coordinates, and the data dictionary entries used by the
engine, namely data with key distance and data with key bodies. -/
structure StarsSystem where
  name : Option String := none
  address : Option Int := none
  pos_x : Option ℚ := none
  pos_y : Option ℚ := none
  pos_z : Option ℚ := none
  dist : Option ℚ := none
  dataBodies : Option (Option Int) := none
deriving DecidableEq, Repr, Inhabited

/-- StarsSystem.star_pos: the list [pos_x, pos_y, pos_z]. -/
def StarsSystem.star_pos (s : StarsSystem) : Pos := [s.pos_x, s.pos_y, s.pos_z]

@[simp]
theorem star_pos_set_dist (s : StarsSystem) (v : Option ℚ) :
    ({ s with dist := v } : StarsSystem).star_pos = s.star_pos := rfl

/-- Association-list lookup modelling Python dictionary access keyed by
StarsSystem objects; the most recent binding is found first. -/
def alookup {β : Type} (k : StarsSystem) : List (StarsSystem × β) → Option β
  | [] => none
  | (a, v) :: rest => if k = a then some v else alookup k rest

/-- Python list.remove for StarsSystem lists: drop the first occurrence. -/
def pyRemove (l : List StarsSystem) (x : StarsSystem) : List StarsSystem :=
  match l with
  | [] => []
  | a :: rest => if a = x then rest else a :: pyRemove rest x

/-- Python min over a nonempty list with a key function: scan left to
right, replace the champion only on a strictly smaller key, so the first
element attaining the minimal key wins. -/
def pyMin {α β : Type _} [LinearOrder β] (key : α → β) : α → List α → α
  | a, [] => a
  | a, b :: rest => pyMin key (if key b < key a then b else a) rest

/-! ### Euclid (math.py): the distance-implementation selector -/

/-- Euclid.distance (math.py, also cartesianmath.py): scan the ordered
implementation list and return the first result that is not the absent
sentinel.  Each candidate implementation catches its own exceptions and
returns the sentinel on failure, so at this level a throwing
implementation and one returning the sentinel are the same. -/
def euclidDistance (methods : List (Pos → Pos → Option ℚ)) (p q : Pos) : Option ℚ :=
  match methods with
  | [] => none
  | m :: rest =>
    match m p q with
    | some v => some v
    | none => euclidDistance rest p q

/-- Squared Euclidean distance of two coordinate lists; unset
coordinates are read as zero (the claims only involve set positions). -/
def sqDist : Pos → Pos → ℚ
  | a :: as, b :: bs => ((a.getD 0) - (b.getD 0)) ^ 2 + sqDist as bs
  | _, _ => 0

/-- The metric d computes Euclidean distances on the positions in ps:
every value is nonnegative and its square is the squared Euclidean
distance of the endpoints. -/
def EuclidOn (d : Pos → Pos → ℚ) (ps : List Pos) : Prop :=
  ∀ p ∈ ps, ∀ q ∈ ps, 0 ≤ d p q ∧ d p q ^ 2 = sqDist p q

/-- Rational witness metric: sum of absolute coordinate differences; on
axis-collinear points it coincides with the Euclidean distance. -/
def dLine (p q : Pos) : ℚ :=
  |((p.getD 0 none).getD 0) - ((q.getD 0 none).getD 0)| +
    |((p.getD 1 none).getD 0) - ((q.getD 1 none).getD 0)| +
    |((p.getD 2 none).getD 0) - ((q.getD 2 none).getD 0)|

/-! ### AlgAStar (math.py) -/

/-- Mutable state of AlgAStar.run: the open set, the back-pointer map,
the g and f score dictionaries, and the stored final path. -/
structure AState where
  openSet : List StarsSystem
  cameFrom : List (StarsSystem × StarsSystem)
  gScore : List (StarsSystem × ℚ)
  fScore : List (StarsSystem × ℚ)
  final : List StarsSystem
deriving DecidableEq, Repr

/-- f_score.get(point, float("inf")): a missing key reads as infinity. -/
def fGet (f : List (StarsSystem × ℚ)) (p : StarsSystem) : WithTop ℚ :=
  match alookup p f with
  | some v => (v : WithTop ℚ)
  | none => ⊤

/-- AlgAStar.__reconstruct_path while loop: follow the back-pointers as
long as the current node has one; fuel bounds the loop. -/
def reconstructGo (fuel : ℕ) (came : List (StarsSystem × StarsSystem))
    (cur : StarsSystem) : List StarsSystem :=
  match fuel with
  | 0 => []
  | n + 1 =>
    match alookup cur came with
    | none => []
    | some prev => cur :: reconstructGo n came prev

/-- AlgAStar.__reconstruct_path: collect along back-pointers, then
reverse. -/
def reconstructPath (came : List (StarsSystem × StarsSystem))
    (cur : StarsSystem) : List StarsSystem :=
  (reconstructGo (came.length + 1) came cur).reverse

/-- AlgAStar.__get_neighbors: dataset members not already in final and
within jump range of the point. -/
def getNeighbors (d : Pos → Pos → ℚ) (jump : ℚ) (data : List StarsSystem)
    (final : List StarsSystem) (point : StarsSystem) : List StarsSystem :=
  data.filter (fun p => decide (p ∉ final) && decide (d point.star_pos p.star_pos ≤ jump))

/-- The goal position used by the heuristic of AlgAStar.run: the
position of data[0]. -/
def goalPos (data : List StarsSystem) : Pos := (data.getD 0 default).star_pos

/-- Body of the neighbor loop in AlgAStar.run: relax one neighbor. -/
def relaxNeighbor (d : Pos → Pos → ℚ) (goal : Pos) (current : StarsSystem)
    (st : AState) (nb : StarsSystem) : AState :=
  let tentative := (alookup current st.gScore).getD 0 + d current.star_pos nb.star_pos
  if (alookup nb st.gScore) = none ∨ tentative < (alookup nb st.gScore).getD 0 then
    { st with
      cameFrom := (nb, current) :: st.cameFrom
      gScore := (nb, tentative) :: st.gScore
      fScore := (nb, tentative + d nb.star_pos goal) :: st.fScore
      openSet := if nb ∈ st.openSet then st.openSet else st.openSet ++ [nb] }
  else st

/-- One iteration of the while loop of AlgAStar.run: pick the open node
with the smallest f score (first minimum wins), store the reconstructed
path whenever that node is a dataset member, remove it from the open
set, then relax its neighbors. -/
def astarStep (d : Pos → Pos → ℚ) (jump : ℚ) (data : List StarsSystem)
    (st : AState) : AState :=
  match st.openSet with
  | [] => st
  | a :: rest =>
    let current := pyMin (fGet st.fScore) a rest
    let final1 := if current ∈ data then reconstructPath st.cameFrom current else st.final
    let st1 : AState := { st with final := final1, openSet := pyRemove st.openSet current }
    (getNeighbors d jump data final1 current).foldl (relaxNeighbor d (goalPos data) current) st1

/-- The while loop of AlgAStar.run, with fuel. -/
def astarLoop (d : Pos → Pos → ℚ) (jump : ℚ) (data : List StarsSystem) :
    ℕ → AState → AState
  | 0, st => st
  | n + 1, st =>
    if st.openSet = [] then st else astarLoop d jump data n (astarStep d jump data st)

/-- The state built at the top of AlgAStar.run. -/
def astarInit (d : Pos → Pos → ℚ) (start : StarsSystem)
    (data : List StarsSystem) : AState :=
  { openSet := [start], cameFrom := [], gScore := [(start, 0)],
    fScore := [(start, d start.star_pos (goalPos data))], final := [] }

/-- AlgAStar.run: drive the loop until the open set is exhausted (fuel
models the while loop), then execute the trailing unconditional
assignment of the empty list to the final path. -/
def astarRun (d : Pos → Pos → ℚ) (jump : ℚ) (start : StarsSystem)
    (data : List StarsSystem) (fuel : ℕ) : AState :=
  let st := astarLoop d jump data fuel (astarInit d start data)
  { st with final := [] }

/-- AlgAStar.get_final: the stored path without the start system. -/
def astarGetFinal (start : StarsSystem) (st : AState) : List StarsSystem :=
  st.final.filter (fun p => decide (p ≠ start))

/-! ### AlgTsp (math.py) -/

/-- itertools.permutations enumeration: choose each remaining element by
ascending position and recurse on the rest, which yields the
lexicographic order of positions used by Python; the fuel argument is
the length of the list. -/
def pyPermsAux : ℕ → List ℕ → List (List ℕ)
  | 0, _ => [[]]
  | _ + 1, [] => [[]]
  | n + 1, a :: as =>
    (List.range (a :: as).length).flatMap
      (fun i => (pyPermsAux n ((a :: as).eraseIdx i)).map (fun p => (a :: as).getD i 0 :: p))

/-- itertools.permutations over the full list. -/
def pyPermutations (l : List ℕ) : List (List ℕ) := pyPermsAux l.length l

/-- The vertex list of AlgTsp.__stage_2_solution: every dataset index
except the start index 0. -/
def vertexList (n : ℕ) : List ℕ := (List.range n).filter (fun i => decide (i ≠ 0))

/-- AlgTsp.__stage_1_costs: the pairwise metric distance table of the
dataset. -/
def costMatrix (d : Pos → Pos → ℚ) (data : List StarsSystem) : List (List ℚ) :=
  data.map (fun a => data.map (fun b => d a.star_pos b.star_pos))

/-- Matrix access tmp[i][j]. -/
def mat (m : List (List ℚ)) (i j : ℕ) : ℚ := (m.getD i []).getD j 0

/-- The path weight accumulation of AlgTsp.__stage_2_solution: from
current vertex k walk the permutation adding matrix legs, then add the
closing leg back to the start index 0. -/
def pathWeight (m : List (List ℚ)) : ℕ → List ℕ → ℚ
  | k, [] => mat m k 0
  | k, j :: rest => mat m k j + pathWeight m j rest

/-- Closed-tour weight of a permutation starting at index 0. -/
def cycleWeight (m : List (List ℚ)) (perm : List ℕ) : ℚ := pathWeight m 0 perm

/-- float(sys.maxsize), the initial minimum of stage 2. -/
def maxsizeQ : ℚ := 2 ^ 63 - 1

/-- AlgTsp.__stage_2_solution: scan every permutation of the vertex
list and keep the first one realizing the strictly smallest closed-tour
weight, together with that weight. -/
def tspSelect (m : List (List ℚ)) (n : ℕ) : ℚ × List ℕ :=
  (pyPermutations (vertexList n)).foldl
    (fun acc p => if cycleWeight m p < acc.1 then (cycleWeight m p, p) else acc)
    (maxsizeQ, [])

/-- Dataset access by index. -/
def sysAt (data : List StarsSystem) (i : ℕ) : StarsSystem := data.getD i default

/-- The loop of AlgTsp.__final_update from a previous index i over the
remaining visited indices: write the leg distance from the previously
visited system into each visited system and accumulate the total. -/
def finalUpdateGo (d : Pos → Pos → ℚ) (data : List StarsSystem) :
    ℕ → List ℕ → List StarsSystem × ℚ
  | _, [] => ([], 0)
  | i, j :: rest =>
    let v := d (sysAt data i).star_pos (sysAt data j).star_pos
    let r := finalUpdateGo d data j rest
    ({ sysAt data j with dist := some v } :: r.1, v + r.2)

/-- AlgTsp.__final_update over the merged index list tmp. -/
def finalUpdate (d : Pos → Pos → ℚ) (data : List StarsSystem)
    (tmp : List ℕ) : List StarsSystem × ℚ :=
  match tmp with
  | [] => ([], 0)
  | i :: rest => finalUpdateGo d data i rest

/-- AlgTsp.run composed from its three stages; the dataset is the start
system followed by the candidate systems, and the result is the pair of
get_final and the accumulated total distance. -/
def algTspRun (d : Pos → Pos → ℚ) (start : StarsSystem)
    (systems : List StarsSystem) : List StarsSystem × ℚ :=
  let data := start :: systems
  let m := costMatrix d data
  let sel := tspSelect m data.length
  finalUpdate d data (0 :: sel.2)

/-! ### AlgGenetic (math.py) -/

/-- The annotation loop at the end of AlgGenetic.run: walk the final
list from the start point, write each leg distance into the data
dictionary of the visited system, accumulate the total, and continue
from the visited system. -/
def annotateFrom (d : Pos → Pos → ℚ) : StarsSystem → List StarsSystem →
    List StarsSystem × ℚ
  | _, [] => ([], 0)
  | prev, s :: rest =>
    let v := d prev.star_pos s.star_pos
    let s1 := { s with dist := some v }
    let r := annotateFrom d s1 rest
    (s1 :: r.1, v + r.2)

/-- AlgGenetic.run after __evolve produced evolved: remove the first
occurrence of the start point, then annotate the remaining route. -/
def algGeneticFinalize (d : Pos → Pos → ℚ) (start : StarsSystem)
    (evolved : List StarsSystem) : List StarsSystem × ℚ :=
  annotateFrom d start (pyRemove evolved start)

/-- AlgGenetic.__generate_individual greedy loop with fuel equal to the
number of remaining points: take the nearest remaining point (first
minimum wins) and stop as soon as it is farther than the jump range. -/
def genIndGo (d : Pos → Pos → ℚ) (maxDist : ℚ) :
    ℕ → StarsSystem → List StarsSystem → List StarsSystem
  | 0, _, _ => []
  | _ + 1, _, [] => []
  | n + 1, last, p :: rest =>
    let cp := pyMin (fun q => d last.star_pos q.star_pos) p rest
    if maxDist < d last.star_pos cp.star_pos then []
    else cp :: genIndGo d maxDist n cp (pyRemove (p :: rest) cp)

/-- AlgGenetic.__generate_individual: the start point followed by the
greedily collected points. -/
def generateIndividual (d : Pos → Pos → ℚ) (maxDist : ℚ)
    (start : StarsSystem) (points : List StarsSystem) : List StarsSystem :=
  start :: genIndGo d maxDist points.length start points

/-- AlgGenetic.__crossover given the draw r of random.random() and an
oracle pick for random.randint.  Python random.randint(1, len(parent1)
- 2) raises ValueError on an empty range, which happens exactly when
parent1 has fewer than 3 elements; this is the error case. -/
def crossoverE (rate r : ℚ) (pick : ℕ) (parent1 parent2 : List StarsSystem) :
    Except Unit (List StarsSystem) :=
  if rate < r then Except.ok parent1
  else if parent1.length < 3 then Except.error ()
  else
    let cp := 1 + pick % (parent1.length - 2)
    Except.ok (parent1.take cp ++
      parent2.filter (fun p => decide (p ∉ parent1.take cp)))

/-- The tour length summed by AlgGenetic.__get_fitness. -/
def tourLength (d : Pos → Pos → ℚ) : List StarsSystem → ℚ
  | [] => 0
  | [_] => 0
  | a :: b :: rest => d a.star_pos b.star_pos + tourLength d (b :: rest)

/-- AlgGenetic.__get_fitness: the reciprocal of the tour length, or
infinity for a tour of length zero. -/
def getFitness (d : Pos → Pos → ℚ) (ind : List StarsSystem) : WithTop ℚ :=
  if 0 < tourLength d ind then ((1 / tourLength d ind : ℚ) : WithTop ℚ) else ⊤

/-- max(fitnesses) over a population, as the Python left fold; the empty
case is never reached by the code. -/
def bestFitness (fit : List StarsSystem → WithTop ℚ) :
    List (List StarsSystem) → WithTop ℚ
  | [] => 0
  | p :: rest => (rest.map fit).foldl max (fit p)

/-- population[fitnesses.index(max(fitnesses))] in AlgGenetic.__evolve:
the first individual whose fitness equals the maximum. -/
def bestIndividual (fit : List StarsSystem → WithTop ℚ)
    (pop : List (List StarsSystem)) : List StarsSystem :=
  (pop.find? (fun p => decide (fit p = bestFitness fit pop))).getD []

/-! ### ThSystemSearch (th.py) -/

/-- A raw catalog document for the candidate filter: each count field is
either missing (outer none), present with the null value (some none), or
present with an integer value. -/
structure Doc where
  docName : String := ""
  bodyCount : Option (Option Int) := none
  bodies : Option (Option Int) := none
deriving DecidableEq, Repr

/-- Conversion of a kept document performed by the filter loop:
update_from_edsm copies the identity fields, then the data entry for
bodies is explicitly reset to the null sentinel. -/
def toSystem (doc : Doc) : StarsSystem :=
  { name := some doc.docName, dataBodies := some none }

/-- The keep condition of ThSystemSearch.__build_radius_systems_list
with the Python operator precedence made explicit: the bodyCount key is
present with the value None, or the bodies key is present with the
value None, or both keys are present and the raw values differ. -/
def pythonKeep (doc : Doc) : Bool :=
  (doc.bodyCount == some none) || (doc.bodies == some none) ||
    (doc.bodyCount.isSome && doc.bodies.isSome && (doc.bodyCount != doc.bodies))

/-- The filter loop of ThSystemSearch.__build_radius_systems_list:
append the converted system for each kept document, preserving order. -/
def buildRadiusSystemsList : List Doc → List StarsSystem
  | [] => []
  | doc :: rest =>
    if pythonKeep doc then toSystem doc :: buildRadiusSystemsList rest
    else buildRadiusSystemsList rest

/-- Modelled from the claim wording: a count is absent when the document
does not carry a count value for the field, that is, the field is
missing entirely or holds the null value. -/
def countAbsent (c : Option (Option Int)) : Prop := c = none ∨ c = some none

/-- The selection rule exactly as the claim states it: keep a document
when either count is absent, or both counts are present and unequal. -/
def claimKeep (doc : Doc) : Prop :=
  countAbsent doc.bodyCount ∨ countAbsent doc.bodies ∨
    (∃ a b : Int, doc.bodyCount = some (some a) ∧ doc.bodies = some (some b) ∧ a ≠ b)

/-- The amended selection rule: keep exactly the documents carrying a
count field with an explicit null value, or carrying both count fields
with unequal values. -/
def amendedKeep (doc : Doc) : Bool :=
  (doc.bodyCount == some none) || (doc.bodies == some none) ||
    (doc.bodyCount.isSome && doc.bodies.isSome && (doc.bodyCount != doc.bodies))

/-- The keep condition of the legacy
ThSystemSearch.__buils_radius_systems_list (rscan_libs/th.py): only a
document whose bodyCount key is present with the value None is kept;
the bodies-null and unequal-count branches exist in that file only as
commented-out code. -/
def pythonKeepLegacy (doc : Doc) : Bool := doc.bodyCount == some none

/-- The legacy filter loop: append the converted system (update_from_edsm
followed by resetting the data entry for bodies to the null sentinel)
for each kept document, preserving order. -/
def buildRadiusSystemsListLegacy : List Doc → List StarsSystem
  | [] => []
  | doc :: rest =>
    if pythonKeepLegacy doc then toSystem doc :: buildRadiusSystemsListLegacy rest
    else buildRadiusSystemsListLegacy rest

/-- The amended selection rule for the legacy filter: keep exactly the
documents whose bodyCount field is present with an explicit null value. -/
def amendedKeepLegacy (doc : Doc) : Bool := doc.bodyCount == some none

/-- Python int(): truncation toward zero. -/
def pyInt (q : ℚ) : ℤ := if 0 ≤ q then ⌊q⌋ else ⌈q⌉

/-- The jump value computed by ThSystemSearch.__flight_route_systems:
the constant 50 when no jump range is known, int(jump_range) - 4
otherwise. -/
def flightRouteJump (jumpRange : Option ℚ) : ℤ :=
  match jumpRange with
  | none => 50
  | some v => pyInt v - 4

/-- ThSystemSearch.__flight_route_systems dispatch on the candidate
count; the two algorithm invocations are dependency parameters.  When
the computed list is empty the input list is returned. -/
def flightRouteSystems (algBig algMid : List StarsSystem → List StarsSystem)
    (systems : List StarsSystem) : List StarsSystem :=
  let out : List StarsSystem :=
    if 10 < systems.length then algBig systems
    else if 2 < systems.length then algMid systems
    else []
  if out = [] then systems else out

/-- The route completeness invariant of the specification: every
element of a returned route carries a populated distance entry. -/
def routeComplete (route : List StarsSystem) : Prop :=
  ∀ s ∈ route, s.dist ≠ none

/-! ### StarsSystem name setters (stars.py, both versions) -/

/-- The current StarsSystem.name setter
(rscan/jsktoolbox/edmctool/stars.py): store the value and touch nothing
else. -/
def nameSetCurrent (s : StarsSystem) (arg : Option String) : StarsSystem :=
  { s with name := arg }

/-- The legacy StarsSystem.name setter (rscan_libs/stars.py): store the
value; when it is None, also clear the address and the position. -/
def nameSetLegacy (s : StarsSystem) (arg : Option String) : StarsSystem :=
  if arg = none then
    { s with name := arg, address := none, pos_x := none, pos_y := none, pos_z := none }
  else { s with name := arg }

/-! ### Route predicates used by the claims -/

/-- Each element of the route carries a distance entry equal to the
metric distance from the previous element, the given previous system
for the head. -/
def legsFrom (d : Pos → Pos → ℚ) : StarsSystem → List StarsSystem → Prop
  | _, [] => True
  | prev, s :: rest => s.dist = some (d prev.star_pos s.star_pos) ∧ legsFrom d s rest

/-- Each element of the route carries a nonnegative distance entry
whose square is the squared Euclidean distance from the previous
element. -/
def legsEuclid : StarsSystem → List StarsSystem → Prop
  | _, [] => True
  | prev, s :: rest =>
    (∃ v, s.dist = some v ∧ 0 ≤ v ∧ v ^ 2 = sqDist prev.star_pos s.star_pos) ∧
      legsEuclid s rest

/-- The sum of the stored leg distances of a route. -/
def routeSum (l : List StarsSystem) : ℚ := (l.map (fun s => s.dist.getD 0)).sum

/-! ### Concrete systems used by evaluations and witnesses -/

/-- Start system at the origin. -/
def sysStart : StarsSystem :=
  { address := some 0, pos_x := some 0, pos_y := some 0, pos_z := some 0 }

/-- Candidate on the x axis at distance 1. -/
def sysA : StarsSystem :=
  { address := some 1, pos_x := some 1, pos_y := some 0, pos_z := some 0 }

/-- Candidate on the x axis at distance 2. -/
def sysB : StarsSystem :=
  { address := some 2, pos_x := some 2, pos_y := some 0, pos_z := some 0 }

/-- Candidate on the x axis at distance 3. -/
def sysC : StarsSystem :=
  { address := some 3, pos_x := some 3, pos_y := some 0, pos_z := some 0 }

/-- Candidate on the x axis at distance 100, beyond every jump range
used in the examples. -/
def sysFar : StarsSystem :=
  { address := some 100, pos_x := some 100, pos_y := some 0, pos_z := some 0 }

end RScan

namespace RScan

/-! ### Claim C7: first non-failing distance implementation wins -/

/-- Claim C7: for every pair of 3-D points and every ordered list of
candidate distance implementations, if every implementation before m
fails (returns the absent sentinel, which covers throwing
implementations since each candidate catches its own exceptions) and m
produces a numeric result, then Euclid.distance returns exactly the
result of m. -/
theorem claim_C7_first_success (pre post : List (Pos → Pos → Option ℚ))
    (m : Pos → Pos → Option ℚ) (p q : Pos)
    (hpre : ∀ mm ∈ pre, mm p q = none) (hm : (m p q).isSome = true) :
    euclidDistance (pre ++ m :: post) p q = m p q := by
  induction pre with
  | nil =>
    simp only [List.nil_append]
    cases h : m p q with
    | none => rw [h] at hm; simp at hm
    | some v => simp [euclidDistance, h]
  | cons a rest ih =>
    have ha : a p q = none := hpre a (by simp)
    simp only [List.cons_append, euclidDistance, ha]
    exact ih (fun mm hmm => hpre mm (by simp [hmm]))

/-- An implementation that always fails. -/
def mNone : Pos → Pos → Option ℚ := fun _ _ => none

/-- An implementation that always succeeds with the witness metric. -/
def mLine : Pos → Pos → Option ℚ := fun p q => some (dLine p q)

/-- Witness for claim C7 at a concrete method list and point pair. -/
theorem claim_C7_witness :
    (∀ mm ∈ [mNone], mm sysStart.star_pos sysA.star_pos = none) ∧
    (mLine sysStart.star_pos sysA.star_pos).isSome = true ∧
    euclidDistance ([mNone] ++ mLine :: []) sysStart.star_pos sysA.star_pos =
      mLine sysStart.star_pos sysA.star_pos :=
  ⟨fun mm h => by rw [List.mem_singleton] at h; subst h; rfl, rfl,
    claim_C7_first_success [mNone] [] mLine sysStart.star_pos sysA.star_pos
      (fun mm h => by rw [List.mem_singleton] at h; subst h; rfl) rfl⟩

/-! ### Claim C8: the name setter and clearing of address and position -/

/-- A fully populated system used as the C8 counterexample input. -/
def exSys : StarsSystem :=
  { name := some "X", address := some 42, pos_x := some 1, pos_y := some 2,
    pos_z := some 3 }

/-- Counterexample to claim C8: in the current version, assigning the
unset value to name leaves the address and all three coordinates
untouched instead of clearing them. -/
theorem claim_C8_counterexample :
    (nameSetCurrent exSys none).name = none ∧
    (nameSetCurrent exSys none).address = some 42 ∧
    (nameSetCurrent exSys none).pos_x = some 1 ∧
    (nameSetCurrent exSys none).pos_y = some 2 ∧
    (nameSetCurrent exSys none).pos_z = some 3 :=
  ⟨rfl, rfl, rfl, rfl, rfl⟩

/-- Amended claim C8: the legacy setter clears address and position on
an unset name while keeping the data dictionary, whereas the current
setter only stores the name and changes nothing else. -/
theorem claim_C8_amended_setters :
    (∀ s : StarsSystem,
      (nameSetLegacy s none).name = none ∧ (nameSetLegacy s none).address = none ∧
      (nameSetLegacy s none).pos_x = none ∧ (nameSetLegacy s none).pos_y = none ∧
      (nameSetLegacy s none).pos_z = none) ∧
    (∀ (s : StarsSystem) (arg : Option String),
      nameSetCurrent s arg = { s with name := arg }) := by
  constructor
  · intro s; simp [nameSetLegacy]
  · intro s arg; rfl

/-! ### Claim C9: the dispatcher never passes the jump range verbatim -/

/-- Claim C9: the dispatcher passes the constant 50 when no jump range
is known, and int(jump_range) - 4 when one is known; the passed value is
strictly below the known jump range, hence never the verbatim value. -/
theorem claim_C9_jump_transform :
    flightRouteJump none = 50 ∧
    ∀ v : ℚ, flightRouteJump (some v) = pyInt v - 4 ∧
      ((flightRouteJump (some v) : ℚ) < v ∧ (flightRouteJump (some v) : ℚ) ≠ v) := by
  refine ⟨rfl, fun v => ⟨rfl, ?_, ?_⟩⟩
  · show ((pyInt v - 4 : ℤ) : ℚ) < v
    rw [pyInt]
    by_cases h : 0 ≤ v
    · rw [if_pos h]
      have hf : ((⌊v⌋ : ℤ) : ℚ) ≤ v := Int.floor_le v
      push_cast
      linarith
    · rw [if_neg h]
      have hc : ((⌈v⌉ : ℤ) : ℚ) < v + 1 := Int.ceil_lt_add_one v
      push_cast
      linarith
  · show ((pyInt v - 4 : ℤ) : ℚ) ≠ v
    apply ne_of_lt
    rw [pyInt]
    by_cases h : 0 ≤ v
    · rw [if_pos h]
      have hf : ((⌊v⌋ : ℤ) : ℚ) ≤ v := Int.floor_le v
      push_cast
      linarith
    · rw [if_neg h]
      have hc : ((⌈v⌉ : ℤ) : ℚ) < v + 1 := Int.ceil_lt_add_one v
      push_cast
      linarith

/-! ### Claim C10: small candidate lists bypass the algorithms -/

/-- Claim C10: with at most 2 candidate systems the dispatcher runs no
algorithm and returns the input list unchanged, so when the inputs carry
no distance entries the returned sequence violates the route
completeness invariant. -/
theorem claim_C10_dispatch_small
    (algBig algMid : List StarsSystem → List StarsSystem)
    (systems : List StarsSystem) (h : systems.length ≤ 2) :
    flightRouteSystems algBig algMid systems = systems ∧
    (systems ≠ [] → (∀ s ∈ systems, s.dist = none) →
      ¬ routeComplete (flightRouteSystems algBig algMid systems)) := by
  have h10 : ¬ (10 < systems.length) := by omega
  have h2 : ¬ (2 < systems.length) := by omega
  have he : flightRouteSystems algBig algMid systems = systems := by
    simp [flightRouteSystems, h10, h2]
  refine ⟨he, ?_⟩
  intro hne hall hrc
  rw [he] at hrc
  cases systems with
  | nil => exact hne rfl
  | cons a as => exact (hrc a (by simp)) (hall a (by simp))

/-- Witness for claim C10 at a concrete two-candidate list. -/
theorem claim_C10_witness :
    ([sysA, sysB] : List StarsSystem).length ≤ 2 ∧
    (flightRouteSystems id id [sysA, sysB] = [sysA, sysB] ∧
      ([sysA, sysB] ≠ ([] : List StarsSystem) →
        (∀ s ∈ [sysA, sysB], s.dist = none) →
        ¬ routeComplete (flightRouteSystems id id [sysA, sysB]))) :=
  ⟨by decide, claim_C10_dispatch_small id id [sysA, sysB] (by decide)⟩

end RScan

namespace RScan

/-! ### Claim C4: the candidate filter -/

/-- A document carrying neither count field. -/
def emptyDoc : Doc := { docName := "empty" }

/-- A fully surveyed document: both counts present and equal. -/
def doc55 : Doc :=
  { docName := "surveyed", bodyCount := some (some 5), bodies := some (some 5) }

/-- A partially surveyed document: both counts present and unequal. -/
def doc53 : Doc :=
  { docName := "partial", bodyCount := some (some 5), bodies := some (some 3) }

/-- An uncounted document: the bodyCount key present with a null value. -/
def docNull : Doc := { docName := "uncounted", bodyCount := some none }

/-- Counterexample to claim C4 as stated, against both cited filter
versions: a document carrying neither count field has both counts
absent, so the stated rule keeps it, yet the current filter and the
legacy filter both drop it because every code branch requires the key
to be present; moreover the stated rule keeps the document with
bodyCount 5 and bodies 3, yet the legacy filter drops it because its
only live branch demands a null bodyCount. -/
theorem claim_C4_counterexample :
    claimKeep emptyDoc ∧ buildRadiusSystemsList [emptyDoc] = [] ∧
    buildRadiusSystemsListLegacy [emptyDoc] = [] ∧
    claimKeep doc53 ∧ buildRadiusSystemsListLegacy [doc53] = [] :=
  ⟨Or.inl (Or.inl rfl), rfl, rfl,
    Or.inr (Or.inr ⟨5, 3, rfl, rfl, by decide⟩), rfl⟩

/-- Amended claim C4, split by filter version: the current filter keeps
exactly the documents carrying a count field with an explicit null
value or carrying both count fields with unequal values, while the
legacy filter keeps exactly the documents whose bodyCount field is
present with a null value; both preserve the input order.  In the
current filter the document with bodyCount 5 and bodies 5 is dropped
and the one with bodyCount 5 and bodies 3 is kept; the legacy filter
drops both of those and keeps a document with a null bodyCount. -/
theorem claim_C4_amended_filter :
    (∀ docs : List Doc,
      buildRadiusSystemsList docs = (docs.filter amendedKeep).map toSystem) ∧
    (∀ docs : List Doc,
      buildRadiusSystemsListLegacy docs =
        (docs.filter amendedKeepLegacy).map toSystem) ∧
    buildRadiusSystemsList [doc55] = [] ∧
    buildRadiusSystemsList [doc53] = [toSystem doc53] ∧
    buildRadiusSystemsListLegacy [doc55] = [] ∧
    buildRadiusSystemsListLegacy [doc53] = [] ∧
    buildRadiusSystemsListLegacy [docNull] = [toSystem docNull] := by
  refine ⟨?_, ?_, rfl, rfl, rfl, rfl, rfl⟩
  · intro docs
    induction docs with
    | nil => rfl
    | cons doc rest ih =>
      have hak : amendedKeep doc = pythonKeep doc := rfl
      cases h : pythonKeep doc <;>
        simp [buildRadiusSystemsList, List.filter_cons, hak, h, ih]
  · intro docs
    induction docs with
    | nil => rfl
    | cons doc rest ih =>
      have hak : amendedKeepLegacy doc = pythonKeepLegacy doc := rfl
      cases h : pythonKeepLegacy doc <;>
        simp [buildRadiusSystemsListLegacy, List.filter_cons, hak, h, ih]

/-! ### Claim C5: the genetic algorithm crashes on truncated seeds -/

/-- Claim C5 evaluation at the failing input: with the single candidate
farther than the jump range the greedy seed truncates to the start
system alone, and __crossover on two such length-1 parents with a
crossover-branch random draw executes random.randint on the empty range
(1, -1), which raises ValueError instead of returning a tour. -/
theorem claim_C5_crash_evaluation :
    generateIndividual dLine 10 sysStart [sysFar] = [sysStart] ∧
    crossoverE (2/5) (3/10) 0 [sysStart] [sysStart] = Except.error () := by
  constructor
  · show sysStart :: genIndGo dLine 10 [sysFar].length sysStart [sysFar] = [sysStart]
    norm_num [genIndGo, pyMin, dLine, sysStart, sysFar, StarsSystem.star_pos]
  · norm_num [crossoverE]

end RScan

namespace RScan

/-! ### Claim C6: elitism makes best fitness non-decreasing -/

theorem foldl_max_le_init {α : Type _} [LinearOrder α] (l : List α) (a : α) :
    a ≤ l.foldl max a := by
  induction l generalizing a with
  | nil => exact le_refl a
  | cons x xs ih =>
    rw [List.foldl_cons]
    exact le_trans (le_max_left a x) (ih (max a x))

theorem foldl_max_le_mem {α : Type _} [LinearOrder α] (l : List α) (a : α) :
    ∀ x ∈ l, x ≤ l.foldl max a := by
  induction l generalizing a with
  | nil => simp
  | cons y ys ih =>
    intro x hx
    rw [List.foldl_cons]
    rcases List.mem_cons.mp hx with rfl | h
    · exact le_trans (le_max_right a x) (foldl_max_le_init ys (max a x))
    · exact ih (max a y) x h

theorem foldl_max_mem {α : Type _} [LinearOrder α] (l : List α) (a : α) :
    l.foldl max a = a ∨ l.foldl max a ∈ l := by
  induction l generalizing a with
  | nil => left; rfl
  | cons y ys ih =>
    rw [List.foldl_cons]
    rcases ih (max a y) with h | h
    · rcases max_choice a y with hm | hm
      · left; rw [h, hm]
      · right; rw [h, hm]; exact List.mem_cons_self y ys
    · right; exact List.mem_cons_of_mem y h

theorem find?_of_mem {α : Type _} (P : α → Bool) (l : List α) (x : α)
    (hx : x ∈ l) (hP : P x = true) :
    ∃ y, l.find? P = some y ∧ P y = true := by
  induction l with
  | nil => cases hx
  | cons a as ih =>
    cases h : P a with
    | true => exact ⟨a, List.find?_cons_of_pos as h, h⟩
    | false =>
      rcases List.mem_cons.mp hx with rfl | hmem
      · rw [h] at hP; cases hP
      · rcases ih hmem with ⟨y, hy, hPy⟩
        exact ⟨y, by rw [List.find?_cons_of_neg as (by simp [h]), hy], hPy⟩

/-- Amended claim C6: for every metric and population, provided the
carried best individual enters the new population as an uncorrupted
value, that is, the next population is the value of the best individual
followed by whatever children are generated, the best fitness of the
next generation is at least the best fitness of the current one, and
the carried individual attains the current best fitness.  The
unamended for-every-seed claim fails on the code because __crossover
returns parent1 by reference and __mutate swaps the individual in
place, so the carried elite object itself can be corrupted before the
next generation is evaluated; see the counterexample. -/
theorem claim_C6_elitism (d : Pos → Pos → ℚ)
    (pop children : List (List StarsSystem)) (hne : pop ≠ []) :
    getFitness d (bestIndividual (getFitness d) pop) = bestFitness (getFitness d) pop ∧
    bestFitness (getFitness d) pop ≤
      bestFitness (getFitness d) (bestIndividual (getFitness d) pop :: children) := by
  obtain ⟨p, rest, rfl⟩ : ∃ p rest, pop = p :: rest := by
    cases pop with
    | nil => exact absurd rfl hne
    | cons p rest => exact ⟨p, rest, rfl⟩
  set fit := getFitness d with hfit
  have hM : bestFitness fit (p :: rest) = (rest.map fit).foldl max (fit p) := rfl
  have hmem : ∃ x ∈ p :: rest, fit x = bestFitness fit (p :: rest) := by
    rcases foldl_max_mem (rest.map fit) (fit p) with h | h
    · exact ⟨p, List.mem_cons_self p rest, by rw [hM, h]⟩
    · rcases List.mem_map.mp h with ⟨x, hx, hfx⟩
      exact ⟨x, List.mem_cons_of_mem p hx, by rw [hM, hfx]⟩
  obtain ⟨x, hxmem, hxfit⟩ := hmem
  obtain ⟨y, hy, hPy⟩ :=
    find?_of_mem (fun q => decide (fit q = bestFitness fit (p :: rest)))
      (p :: rest) x hxmem (by simp [hxfit])
  have hbest : bestIndividual fit (p :: rest) = y := by
    rw [bestIndividual, hy]; rfl
  have hyfit : fit y = bestFitness fit (p :: rest) := by
    simpa using hPy
  refine ⟨by rw [hbest, hyfit], ?_⟩
  have hnew : bestFitness fit (bestIndividual fit (p :: rest) :: children) =
      (children.map fit).foldl max (fit (bestIndividual fit (p :: rest))) := rfl
  rw [hnew, hbest, hyfit.symm]
  exact foldl_max_le_init (children.map fit) (fit y)

/-- Witness for claim C6 at a concrete one-individual population. -/
theorem claim_C6_witness :
    ([[sysStart]] : List (List StarsSystem)) ≠ [] ∧
    (getFitness dLine (bestIndividual (getFitness dLine) [[sysStart]]) =
        bestFitness (getFitness dLine) [[sysStart]] ∧
      bestFitness (getFitness dLine) [[sysStart]] ≤
        bestFitness (getFitness dLine)
          (bestIndividual (getFitness dLine) [[sysStart]] :: [])) :=
  ⟨by simp, claim_C6_elitism dLine [[sysStart]] [] (by simp)⟩

/-- Candidate on the x axis at distance 50, beyond jump range 10 from
the candidate at distance 3. -/
def sysD : StarsSystem :=
  { address := some 50, pos_x := some 50, pos_y := some 0, pos_z := some 0 }

/-- Candidate on the x axis at distance 51. -/
def sysE : StarsSystem :=
  { address := some 51, pos_x := some 51, pos_y := some 0, pos_z := some 0 }

/-- The in-place swap executed by AlgGenetic.__mutate: the tuple on the
right-hand side is evaluated first, then the two positions are
assigned. -/
def pySwap (ind : List StarsSystem) (i j : ℕ) : List StarsSystem :=
  (ind.set i (ind.getD j default)).set j (ind.getD i default)

/-- AlgGenetic.__mutate given the draw r of random.random() and the two
sampled interior positions: the individual is returned unchanged when
the draw exceeds the mutation rate, and otherwise the object itself is
mutated by the in-place swap, so every reference to it observes the
swap. -/
def pyMutate (rate r : ℚ) (i j : ℕ) (ind : List StarsSystem) : List StarsSystem :=
  if rate < r then ind else pySwap ind i j

theorem foldl_max_replicate {α : Type _} [LinearOrder α] (n : ℕ) (a : α) :
    (List.replicate n a).foldl max a = a := by
  induction n with
  | zero => rfl
  | succ k ih =>
    rw [List.replicate_succ, List.foldl_cons, max_self]
    exact ih

theorem bestFitness_replicate (fit : List StarsSystem → WithTop ℚ) (n : ℕ)
    (x : List StarsSystem) :
    bestFitness fit (List.replicate (n + 1) x) = fit x := by
  rw [List.replicate_succ]
  show ((List.replicate n x).map fit).foldl max (fit x) = fit x
  rw [List.map_replicate]
  exact foldl_max_replicate n (fit x)

/-- Counterexample to claim C6 as stated: on the instance with
candidates at x = 1, 2, 3, 50, 51 and jump range 10, every greedy seed
is the length-4 individual [start, 1, 2, 3] (so the early-stop guard
does not fire and the interior sample range of __mutate is exactly the
positions 1 and 2).  The code carries the best individual into the new
population by reference; under a seed in which every selection picks
that object as parent1, every crossover draw exceeds the crossover
rate (so __crossover returns parent1 itself), and one mutation draw of
0.01 is at most the mutation rate 0.05, the single object referenced
by all hundred entries of the new population is swapped in place at
positions 1 and 2.  The best fitness then falls from 1/3 to 1/5
between consecutive generations, refuting the for-every-seed
monotonicity. -/
theorem claim_C6_counterexample :
    generateIndividual dLine 10 sysStart [sysA, sysB, sysC, sysD, sysE] =
      [sysStart, sysA, sysB, sysC] ∧
    pyMutate (5/100) (1/100) 1 2 [sysStart, sysA, sysB, sysC] =
      [sysStart, sysB, sysA, sysC] ∧
    bestFitness (getFitness dLine)
        (List.replicate 100 [sysStart, sysA, sysB, sysC]) = ((1/3 : ℚ) : WithTop ℚ) ∧
    bestFitness (getFitness dLine)
        (List.replicate 100
          (pyMutate (5/100) (1/100) 1 2 [sysStart, sysA, sysB, sysC])) =
      ((1/5 : ℚ) : WithTop ℚ) ∧
    ¬ (bestFitness (getFitness dLine)
          (List.replicate 100 [sysStart, sysA, sysB, sysC]) ≤
        bestFitness (getFitness dLine)
          (List.replicate 100
            (pyMutate (5/100) (1/100) 1 2 [sysStart, sysA, sysB, sysC]))) := by
  have hmut : pyMutate (5/100) (1/100) 1 2 [sysStart, sysA, sysB, sysC] =
      [sysStart, sysB, sysA, sysC] := by
    norm_num [pyMutate, pySwap]
  have hg : bestFitness (getFitness dLine)
      (List.replicate 100 [sysStart, sysA, sysB, sysC]) = ((1/3 : ℚ) : WithTop ℚ) := by
    rw [show (100 : ℕ) = 99 + 1 from rfl, bestFitness_replicate]
    norm_num [getFitness, tourLength, dLine, sysStart, sysA, sysB, sysC,
      StarsSystem.star_pos]
  have hg1 : bestFitness (getFitness dLine)
      (List.replicate 100
        (pyMutate (5/100) (1/100) 1 2 [sysStart, sysA, sysB, sysC])) =
      ((1/5 : ℚ) : WithTop ℚ) := by
    rw [hmut, show (100 : ℕ) = 99 + 1 from rfl, bestFitness_replicate]
    norm_num [getFitness, tourLength, dLine, sysStart, sysA, sysB, sysC,
      StarsSystem.star_pos]
  refine ⟨?_, hmut, hg, hg1, ?_⟩
  · norm_num [generateIndividual, genIndGo, pyMin, pyRemove, dLine, sysStart, sysA,
      sysB, sysC, sysD, sysE, StarsSystem.star_pos]
  · intro hle
    rw [hg, hg1, WithTop.coe_le_coe] at hle
    norm_num at hle

end RScan

namespace RScan

/-! ### Machinery for claims C2 and C3 -/

/-- The running-minimum scan of AlgTsp.__stage_2_solution as a reusable
function: fold the permutation list keeping the first strictly smaller
weight. -/
def minScan (w : List ℕ → ℚ) (ps : List (List ℕ)) (m0 : ℚ) (b0 : List ℕ) : ℚ × List ℕ :=
  ps.foldl (fun acc p => if w p < acc.1 then (w p, p) else acc) (m0, b0)

theorem tspSelect_eq_minScan (m : List (List ℚ)) (n : ℕ) :
    tspSelect m n = minScan (cycleWeight m) (pyPermutations (vertexList n)) maxsizeQ [] := rfl

theorem minScan_cons (w : List ℕ → ℚ) (p : List ℕ) (ps : List (List ℕ))
    (m0 : ℚ) (b0 : List ℕ) :
    minScan w (p :: ps) m0 b0 =
      if w p < m0 then minScan w ps (w p) p else minScan w ps m0 b0 := by
  by_cases h : w p < m0 <;> simp [minScan, List.foldl_cons, h]

/-- Behavior of the running-minimum scan: the result never exceeds the
initial minimum, is a lower bound of every scanned weight, and either
nothing improved the initial pair, or the selected permutation is a
scanned one realizing the final minimum and is the first scanned
permutation whose weight is at most that minimum. -/
theorem minScan_spec (w : List ℕ → ℚ) :
    ∀ (ps : List (List ℕ)) (m0 : ℚ) (b0 : List ℕ),
      (minScan w ps m0 b0).1 ≤ m0 ∧
      (∀ p ∈ ps, (minScan w ps m0 b0).1 ≤ w p) ∧
      (((minScan w ps m0 b0).1 = m0 ∧ (minScan w ps m0 b0).2 = b0) ∨
        ((minScan w ps m0 b0).1 < m0 ∧
          List.find? (fun p => decide (w p ≤ (minScan w ps m0 b0).1)) ps =
            some (minScan w ps m0 b0).2 ∧
          w (minScan w ps m0 b0).2 = (minScan w ps m0 b0).1 ∧
          (minScan w ps m0 b0).2 ∈ ps)) := by
  intro ps
  induction ps with
  | nil =>
    intro m0 b0
    exact ⟨le_refl m0, by simp, Or.inl ⟨rfl, rfl⟩⟩
  | cons p ps ih =>
    intro m0 b0
    by_cases h : w p < m0
    · rw [minScan_cons, if_pos h]
      obtain ⟨ih1, ih2, ih3⟩ := ih (w p) p
      refine ⟨le_of_lt (lt_of_le_of_lt ih1 h), ?_, ?_⟩
      · intro q hq
        rcases List.mem_cons.mp hq with rfl | hq2
        · exact ih1
        · exact ih2 q hq2
      · right
        rcases ih3 with ⟨he1, he2⟩ | ⟨hl, hf, hw, hm⟩
        · refine ⟨by rw [he1]; exact h, ?_, by rw [he1, he2], by rw [he2]; exact List.mem_cons_self p ps⟩
          rw [List.find?_cons_of_pos ps (by simp [he1]), he2]
        · refine ⟨lt_trans hl h, ?_, hw, List.mem_cons_of_mem p hm⟩
          rw [List.find?_cons_of_neg ps (by simp [not_le.mpr hl]), hf]
    · rw [minScan_cons, if_neg h]
      obtain ⟨ih1, ih2, ih3⟩ := ih m0 b0
      refine ⟨ih1, ?_, ?_⟩
      · intro q hq
        rcases List.mem_cons.mp hq with rfl | hq2
        · exact le_trans ih1 (not_lt.mp h)
        · exact ih2 q hq2
      · rcases ih3 with hL | ⟨hl, hf, hw, hm⟩
        · exact Or.inl hL
        · refine Or.inr ⟨hl, ?_, hw, List.mem_cons_of_mem p hm⟩
          have hnp : ¬ (w p ≤ (minScan w ps m0 b0).1) :=
            not_le.mpr (lt_of_lt_of_le hl (not_lt.mp h))
          rw [List.find?_cons_of_neg ps (by simp [hnp]), hf]

/-- Stage 2 of AlgTsp selects a permutation from the enumeration, its
stored weight is the weight of that permutation, the weight is minimal
among all enumerated permutations, and the selected permutation is the
first of the enumeration attaining the minimum. -/
theorem tspSelect_spec (m : List (List ℚ)) (n : ℕ)
    (hex : ∃ p ∈ pyPermutations (vertexList n), cycleWeight m p < maxsizeQ) :
    (tspSelect m n).2 ∈ pyPermutations (vertexList n) ∧
    cycleWeight m (tspSelect m n).2 = (tspSelect m n).1 ∧
    (∀ p ∈ pyPermutations (vertexList n), (tspSelect m n).1 ≤ cycleWeight m p) ∧
    List.find? (fun p => decide (cycleWeight m p ≤ (tspSelect m n).1))
      (pyPermutations (vertexList n)) = some (tspSelect m n).2 := by
  obtain ⟨h1, h2, h3⟩ := minScan_spec (cycleWeight m) (pyPermutations (vertexList n)) maxsizeQ []
  obtain ⟨p0, hp0, hlt⟩ := hex
  rw [tspSelect_eq_minScan]
  rcases h3 with ⟨he, _⟩ | ⟨_, hf, hw, hm⟩
  · have : (minScan (cycleWeight m) (pyPermutations (vertexList n)) maxsizeQ []).1 < maxsizeQ :=
      lt_of_le_of_lt (h2 p0 hp0) hlt
    rw [he] at this
    exact absurd this (lt_irrefl maxsizeQ)
  · exact ⟨hm, hw, h2, hf⟩

/-- The selected permutation is either the untouched initial empty list
or one of the enumerated permutations. -/
theorem tspSelect_snd (m : List (List ℚ)) (n : ℕ) :
    (tspSelect m n).2 = [] ∨ (tspSelect m n).2 ∈ pyPermutations (vertexList n) := by
  obtain ⟨_, _, h3⟩ := minScan_spec (cycleWeight m) (pyPermutations (vertexList n)) maxsizeQ []
  rw [tspSelect_eq_minScan]
  rcases h3 with ⟨_, he⟩ | ⟨_, _, _, hm⟩
  · exact Or.inl he
  · exact Or.inr hm

/-- Every element of an enumerated permutation is an element of the
enumerated list. -/
theorem mem_pyPermsAux :
    ∀ (fuel : ℕ) (l : List ℕ) (p : List ℕ), p ∈ pyPermsAux fuel l → ∀ x ∈ p, x ∈ l := by
  intro fuel
  induction fuel with
  | zero =>
    intro l p hp x hx
    simp only [pyPermsAux, List.mem_singleton] at hp
    subst hp
    cases hx
  | succ n ih =>
    intro l p hp x hx
    cases l with
    | nil =>
      simp only [pyPermsAux, List.mem_singleton] at hp
      subst hp
      cases hx
    | cons a as =>
      simp only [pyPermsAux, List.mem_flatMap, List.mem_map, List.mem_range] at hp
      obtain ⟨i, hi, q, hq, rfl⟩ := hp
      rcases List.mem_cons.mp hx with rfl | hx2
      · rw [List.getD_eq_getElem?_getD, List.getElem?_eq_getElem hi]
        exact List.getElem_mem hi
      · exact List.mem_of_mem_eraseIdx (ih ((a :: as).eraseIdx i) q hq x hx2)

theorem mem_pyPermutations {l : List ℕ} {p : List ℕ}
    (hp : p ∈ pyPermutations l) : ∀ x ∈ p, x ∈ l :=
  mem_pyPermsAux l.length l p hp

theorem mem_vertexList {n j : ℕ} (h : j ∈ vertexList n) : j < n := by
  simp only [vertexList, List.mem_filter, List.mem_range] at h
  exact h.1

theorem sysAt_mem {data : List StarsSystem} {i : ℕ} (h : i < data.length) :
    sysAt data i ∈ data := by
  rw [sysAt, List.getD_eq_getElem?_getD, List.getElem?_eq_getElem h]
  exact List.getElem_mem h

end RScan

namespace RScan

/-! ### Annotation lemmas for claims C2 and C3 -/

theorem mem_of_mem_pyRemove :
    ∀ {l : List StarsSystem} {x y : StarsSystem}, y ∈ pyRemove l x → y ∈ l := by
  intro l
  induction l with
  | nil => intro x y h; simp [pyRemove] at h
  | cons a as ih =>
    intro x y h
    simp only [pyRemove] at h
    by_cases hax : a = x
    · rw [if_pos hax] at h
      exact List.mem_cons_of_mem a h
    · rw [if_neg hax] at h
      rcases List.mem_cons.mp h with rfl | h2
      · exact List.mem_cons_self y as
      · exact List.mem_cons_of_mem a (ih h2)

theorem finalUpdateGo_legsFrom (d : Pos → Pos → ℚ) (data : List StarsSystem) :
    ∀ (rest : List ℕ) (i : ℕ) (prev : StarsSystem),
      prev.star_pos = (sysAt data i).star_pos →
      legsFrom d prev (finalUpdateGo d data i rest).1 := by
  intro rest
  induction rest with
  | nil => intro i prev _; simp [finalUpdateGo, legsFrom]
  | cons j rest ih =>
    intro i prev hp
    simp only [finalUpdateGo, legsFrom]
    constructor
    · show some (d (sysAt data i).star_pos (sysAt data j).star_pos) =
        some (d prev.star_pos (sysAt data j).star_pos)
      rw [hp]
    · exact ih j _ rfl

theorem finalUpdateGo_sum (d : Pos → Pos → ℚ) (data : List StarsSystem) :
    ∀ (rest : List ℕ) (i : ℕ),
      routeSum (finalUpdateGo d data i rest).1 = (finalUpdateGo d data i rest).2 := by
  intro rest
  induction rest with
  | nil => intro i; simp [finalUpdateGo, routeSum]
  | cons j rest ih =>
    intro i
    simp only [finalUpdateGo, routeSum, List.map_cons, List.sum_cons, Option.getD_some]
    rw [show (List.map (fun s => s.dist.getD 0) (finalUpdateGo d data j rest).1).sum =
        routeSum (finalUpdateGo d data j rest).1 from rfl, ih j]

theorem finalUpdateGo_legsEuclid (d : Pos → Pos → ℚ) (data : List StarsSystem)
    (ps : List Pos) (hE : EuclidOn d ps) :
    ∀ (rest : List ℕ) (i : ℕ) (prev : StarsSystem),
      prev.star_pos = (sysAt data i).star_pos →
      (sysAt data i).star_pos ∈ ps →
      (∀ j ∈ rest, (sysAt data j).star_pos ∈ ps) →
      legsEuclid prev (finalUpdateGo d data i rest).1 := by
  intro rest
  induction rest with
  | nil => intro i prev _ _ _; simp [finalUpdateGo, legsEuclid]
  | cons j rest ih =>
    intro i prev hp hi hall
    have hj : (sysAt data j).star_pos ∈ ps := hall j (List.mem_cons_self j rest)
    obtain ⟨hnn, hsq⟩ := hE _ hi _ hj
    simp only [finalUpdateGo, legsEuclid]
    constructor
    · refine ⟨d (sysAt data i).star_pos (sysAt data j).star_pos, rfl, hnn, ?_⟩
      show d (sysAt data i).star_pos (sysAt data j).star_pos ^ 2 =
        sqDist prev.star_pos (sysAt data j).star_pos
      rw [hp, hsq]
    · exact ih j _ rfl hj
        (fun k hk => hall k (List.mem_cons_of_mem j hk))

theorem annotateFrom_legsFrom (d : Pos → Pos → ℚ) :
    ∀ (l : List StarsSystem) (prev : StarsSystem),
      legsFrom d prev (annotateFrom d prev l).1 := by
  intro l
  induction l with
  | nil => intro prev; simp [annotateFrom, legsFrom]
  | cons s rest ih =>
    intro prev
    simp only [annotateFrom, legsFrom]
    exact ⟨rfl, ih _⟩

theorem annotateFrom_sum (d : Pos → Pos → ℚ) :
    ∀ (l : List StarsSystem) (prev : StarsSystem),
      routeSum (annotateFrom d prev l).1 = (annotateFrom d prev l).2 := by
  intro l
  induction l with
  | nil => intro prev; simp [annotateFrom, routeSum]
  | cons s rest ih =>
    intro prev
    simp only [annotateFrom, routeSum, List.map_cons, List.sum_cons, Option.getD_some]
    rw [show (List.map (fun s => s.dist.getD 0) (annotateFrom d _ rest).1).sum =
        routeSum (annotateFrom d _ rest).1 from rfl, ih]

theorem annotateFrom_legsEuclid (d : Pos → Pos → ℚ) (ps : List Pos)
    (hE : EuclidOn d ps) :
    ∀ (l : List StarsSystem) (prev : StarsSystem),
      prev.star_pos ∈ ps → (∀ s ∈ l, s.star_pos ∈ ps) →
      legsEuclid prev (annotateFrom d prev l).1 := by
  intro l
  induction l with
  | nil => intro prev _ _; simp [annotateFrom, legsEuclid]
  | cons s rest ih =>
    intro prev hprev hall
    have hs : s.star_pos ∈ ps := hall s (List.mem_cons_self s rest)
    obtain ⟨hnn, hsq⟩ := hE _ hprev _ hs
    simp only [annotateFrom, legsEuclid]
    constructor
    · exact ⟨d prev.star_pos s.star_pos, rfl, hnn, hsq⟩
    · exact ih _ hs (fun t ht => hall t (List.mem_cons_of_mem s ht))

end RScan

namespace RScan

/-! ### Claim C2: returned routes carry per-leg distances summing to the total -/

/-- Claim C2: for AlgTsp (via run composed of its stages) and for
AlgGenetic (the annotation pass of run applied to whatever __evolve
returned, hence covering every random seed), every system of the
returned route carries a distance entry equal to the metric distance
from the previous system of the route (the start system for the first
element); when the metric is Euclidean on the involved positions every
entry is the Euclidean leg distance; and the entries sum to the
accumulated total distance of the route. -/
theorem claim_C2_route_invariant (d : Pos → Pos → ℚ) (start : StarsSystem)
    (systems evolved : List StarsSystem)
    (hT : EuclidOn d ((start :: systems).map StarsSystem.star_pos))
    (hG : EuclidOn d ((start :: evolved).map StarsSystem.star_pos))
    (_hs : start ∈ evolved) :
    (legsFrom d start (algTspRun d start systems).1 ∧
      legsEuclid start (algTspRun d start systems).1 ∧
      routeSum (algTspRun d start systems).1 = (algTspRun d start systems).2) ∧
    (legsFrom d start (algGeneticFinalize d start evolved).1 ∧
      legsEuclid start (algGeneticFinalize d start evolved).1 ∧
      routeSum (algGeneticFinalize d start evolved).1 =
        (algGeneticFinalize d start evolved).2) := by
  constructor
  · have hrun : algTspRun d start systems =
        finalUpdateGo d (start :: systems) 0
          (tspSelect (costMatrix d (start :: systems)) (start :: systems).length).2 := rfl
    have hidx : ∀ j ∈ (tspSelect (costMatrix d (start :: systems))
        (start :: systems).length).2,
        (sysAt (start :: systems) j).star_pos ∈
          (start :: systems).map StarsSystem.star_pos := by
      intro j hj
      rcases tspSelect_snd (costMatrix d (start :: systems)) (start :: systems).length
        with h | h
      · rw [h] at hj; cases hj
      · have hjv : j ∈ vertexList (start :: systems).length :=
          mem_pyPermutations h j hj
        exact List.mem_map_of_mem StarsSystem.star_pos (sysAt_mem (mem_vertexList hjv))
    have h0 : (sysAt (start :: systems) 0).star_pos ∈
        (start :: systems).map StarsSystem.star_pos :=
      List.mem_map_of_mem StarsSystem.star_pos (List.mem_cons_self start systems)
    refine ⟨?_, ?_, ?_⟩
    · rw [hrun]
      exact finalUpdateGo_legsFrom d (start :: systems) _ 0 start rfl
    · rw [hrun]
      exact finalUpdateGo_legsEuclid d (start :: systems) _ hT _ 0 start rfl h0 hidx
    · rw [hrun]
      exact finalUpdateGo_sum d (start :: systems) _ 0
  · have hmem : ∀ s ∈ pyRemove evolved start,
        s.star_pos ∈ (start :: evolved).map StarsSystem.star_pos := by
      intro s hsr
      exact List.mem_map_of_mem StarsSystem.star_pos
        (List.mem_cons_of_mem start (mem_of_mem_pyRemove hsr))
    have hstart : StarsSystem.star_pos start ∈
        (start :: evolved).map StarsSystem.star_pos :=
      List.mem_map_of_mem StarsSystem.star_pos (List.mem_cons_self start evolved)
    refine ⟨?_, ?_, ?_⟩
    · exact annotateFrom_legsFrom d (pyRemove evolved start) start
    · exact annotateFrom_legsEuclid d _ hG (pyRemove evolved start) start hstart hmem
    · exact annotateFrom_sum d (pyRemove evolved start) start

/-- The witness metric is Euclidean on the positions of the start and
first candidate systems. -/
theorem euclidOn_startA :
    EuclidOn dLine ((sysStart :: [sysA]).map StarsSystem.star_pos) := by
  intro p hp q hq
  fin_cases hp <;> fin_cases hq <;>
    norm_num [dLine, sqDist, sysStart, sysA, StarsSystem.star_pos]

/-- The witness metric is Euclidean on the positions involved in the
genetic witness route. -/
theorem euclidOn_startStartA :
    EuclidOn dLine ((sysStart :: [sysStart, sysA]).map StarsSystem.star_pos) := by
  intro p hp q hq
  fin_cases hp <;> fin_cases hq <;>
    norm_num [dLine, sqDist, sysStart, sysA, StarsSystem.star_pos]

/-- Witness for claim C2 at a concrete instance. -/
theorem claim_C2_witness :
    EuclidOn dLine ((sysStart :: [sysA]).map StarsSystem.star_pos) ∧
    EuclidOn dLine ((sysStart :: [sysStart, sysA]).map StarsSystem.star_pos) ∧
    sysStart ∈ [sysStart, sysA] ∧
    ((legsFrom dLine sysStart (algTspRun dLine sysStart [sysA]).1 ∧
      legsEuclid sysStart (algTspRun dLine sysStart [sysA]).1 ∧
      routeSum (algTspRun dLine sysStart [sysA]).1 = (algTspRun dLine sysStart [sysA]).2) ∧
    (legsFrom dLine sysStart (algGeneticFinalize dLine sysStart [sysStart, sysA]).1 ∧
      legsEuclid sysStart (algGeneticFinalize dLine sysStart [sysStart, sysA]).1 ∧
      routeSum (algGeneticFinalize dLine sysStart [sysStart, sysA]).1 =
        (algGeneticFinalize dLine sysStart [sysStart, sysA]).2)) :=
  ⟨euclidOn_startA, euclidOn_startStartA, List.mem_cons_self sysStart [sysA],
    claim_C2_route_invariant dLine sysStart [sysA] [sysStart, sysA]
      euclidOn_startA euclidOn_startStartA (List.mem_cons_self sysStart [sysA])⟩

end RScan

namespace RScan

/-! ### Claim C3: exact TSP minimality, tie-breaking and the collinear scenario -/

/-- Claim C3: stage 2 of AlgTsp picks a permutation of the candidate
indices whose closed-tour cost (start through every candidate and back
to start over the distance matrix) is minimal over all enumerated
permutations, the first enumerated permutation winning ties (it is the
first whose cost is at most the selected cost); and on the collinear
scenario with start (0,0,0) and candidates (1,0,0), (2,0,0), (3,0,0)
the returned route is those systems in that order with leg distances
[1,1,1] and total 3, the closing return leg of cost 3 being written to
no system; the metric used there is Euclidean on the involved
positions. -/
theorem claim_C3_tsp_minimality :
    (∀ (d : Pos → Pos → ℚ) (start : StarsSystem) (systems : List StarsSystem),
      (∃ p ∈ pyPermutations (vertexList (start :: systems).length),
          cycleWeight (costMatrix d (start :: systems)) p < maxsizeQ) →
      ((tspSelect (costMatrix d (start :: systems)) (start :: systems).length).2 ∈
          pyPermutations (vertexList (start :: systems).length) ∧
        cycleWeight (costMatrix d (start :: systems))
            (tspSelect (costMatrix d (start :: systems)) (start :: systems).length).2 =
          (tspSelect (costMatrix d (start :: systems)) (start :: systems).length).1 ∧
        (∀ p ∈ pyPermutations (vertexList (start :: systems).length),
          (tspSelect (costMatrix d (start :: systems)) (start :: systems).length).1 ≤
            cycleWeight (costMatrix d (start :: systems)) p) ∧
        List.find?
            (fun p => decide (cycleWeight (costMatrix d (start :: systems)) p ≤
              (tspSelect (costMatrix d (start :: systems)) (start :: systems).length).1))
            (pyPermutations (vertexList (start :: systems).length)) =
          some (tspSelect (costMatrix d (start :: systems)) (start :: systems).length).2)) ∧
    algTspRun dLine sysStart [sysA, sysB, sysC] =
      ([{ sysA with dist := some 1 }, { sysB with dist := some 1 },
        { sysC with dist := some 1 }], 3) ∧
    EuclidOn dLine ((sysStart :: [sysA, sysB, sysC]).map StarsSystem.star_pos) := by
  refine ⟨fun d start systems hex => tspSelect_spec _ _ hex, ?_, ?_⟩
  · have hm : costMatrix dLine [sysStart, sysA, sysB, sysC] =
        [[0,1,2,3],[1,0,1,2],[2,1,0,1],[3,2,1,0]] := by
      norm_num [costMatrix, dLine, sysStart, sysA, sysB, sysC, StarsSystem.star_pos]
    have hp : pyPermutations (vertexList 4) =
        [[1,2,3],[1,3,2],[2,1,3],[2,3,1],[3,1,2],[3,2,1]] := rfl
    have hsel : tspSelect (costMatrix dLine [sysStart, sysA, sysB, sysC]) 4 =
        (6, [1,2,3]) := by
      rw [hm, tspSelect_eq_minScan, hp]
      norm_num [minScan, cycleWeight, pathWeight, mat, maxsizeQ]
    show finalUpdate dLine [sysStart, sysA, sysB, sysC]
        (0 :: (tspSelect (costMatrix dLine [sysStart, sysA, sysB, sysC])
          ([sysStart, sysA, sysB, sysC] : List StarsSystem).length).2) = _
    rw [show ([sysStart, sysA, sysB, sysC] : List StarsSystem).length = 4 from rfl, hsel]
    norm_num [finalUpdate, finalUpdateGo, sysAt, dLine, sysStart, sysA, sysB, sysC,
      StarsSystem.star_pos]
  · intro p hp q hq
    fin_cases hp <;> fin_cases hq <;>
      norm_num [dLine, sqDist, sysStart, sysA, sysB, sysC, StarsSystem.star_pos]

/-- Witness for the quantified part of claim C3 at a concrete instance. -/
theorem claim_C3_witness :
    (∃ p ∈ pyPermutations (vertexList (sysStart :: [sysA]).length),
        cycleWeight (costMatrix dLine (sysStart :: [sysA])) p < maxsizeQ) ∧
    ((tspSelect (costMatrix dLine (sysStart :: [sysA])) (sysStart :: [sysA]).length).2 ∈
        pyPermutations (vertexList (sysStart :: [sysA]).length) ∧
      cycleWeight (costMatrix dLine (sysStart :: [sysA]))
          (tspSelect (costMatrix dLine (sysStart :: [sysA])) (sysStart :: [sysA]).length).2 =
        (tspSelect (costMatrix dLine (sysStart :: [sysA])) (sysStart :: [sysA]).length).1 ∧
      (∀ p ∈ pyPermutations (vertexList (sysStart :: [sysA]).length),
        (tspSelect (costMatrix dLine (sysStart :: [sysA])) (sysStart :: [sysA]).length).1 ≤
          cycleWeight (costMatrix dLine (sysStart :: [sysA])) p) ∧
      List.find?
          (fun p => decide (cycleWeight (costMatrix dLine (sysStart :: [sysA])) p ≤
            (tspSelect (costMatrix dLine (sysStart :: [sysA])) (sysStart :: [sysA]).length).1))
          (pyPermutations (vertexList (sysStart :: [sysA]).length)) =
        some (tspSelect (costMatrix dLine (sysStart :: [sysA])) (sysStart :: [sysA]).length).2) := by
  have hex : ∃ p ∈ pyPermutations (vertexList (sysStart :: [sysA]).length),
      cycleWeight (costMatrix dLine (sysStart :: [sysA])) p < maxsizeQ := by
    refine ⟨[1], ?_, ?_⟩
    · show [1] ∈ pyPermutations (vertexList 2)
      rw [show pyPermutations (vertexList 2) = [[1]] from rfl]
      exact List.mem_singleton.mpr rfl
    · norm_num [cycleWeight, pathWeight, mat, costMatrix, dLine, sysStart, sysA,
        StarsSystem.star_pos, maxsizeQ]
  exact ⟨hex, claim_C3_tsp_minimality.1 dLine sysStart [sysA] hex⟩

end RScan

namespace RScan

/-! ### Claim C1: A* never returns the reconstructed path -/

/-- Evaluation against claim C1: whatever the metric, jump range, start,
dataset and number of loop iterations, get_final after run is the empty
list, because run unconditionally overwrites the stored path with the
empty list after the while loop and never returns early on success.  On
the concrete reachable instance (one candidate at distance 1, jump
range 10) the loop itself does reach the candidate and stores the
reconstructed path, which the trailing assignment then discards. -/
theorem claim_C1_astar_returns_empty :
    (∀ (d : Pos → Pos → ℚ) (jump : ℚ) (start : StarsSystem)
      (data : List StarsSystem) (fuel : ℕ),
      astarGetFinal start (astarRun d jump start data fuel) = []) ∧
    dLine sysStart.star_pos sysA.star_pos ≤ 10 ∧
    (astarLoop dLine 10 [sysA] 2 (astarInit dLine sysStart [sysA])).final = [sysA] ∧
    astarGetFinal sysStart (astarRun dLine 10 sysStart [sysA] 5) = [] := by
  refine ⟨fun d jump start data fuel => rfl, ?_, ?_, rfl⟩
  · norm_num [dLine, sysStart, sysA, StarsSystem.star_pos]
  · norm_num [astarLoop, astarStep, astarInit, pyMin, fGet, alookup, reconstructPath,
      reconstructGo, getNeighbors, goalPos, relaxNeighbor, pyRemove, dLine,
      sysStart, sysA, StarsSystem.star_pos]

end RScan
